import Mathlib

/-
Shallow embedding of the RunTable component of the dagster web UI
(js_modules: RunTable.tsx, given as src/unnamed/part_000), together with
theorems about its view-model derivations: tag pinning, the synthesized
mode tag, the backfill tag link, re-execution detection, selection, and
the empty-state rendering.
-/

/-- A key-value tag attached to a run (RunTagsFragment on PipelineTag). -/
structure PipelineTag where
  key : String
  value : String
deriving DecidableEq, Repr

/-- The fields of RunTableRunFragment that the row view-model derivations
read: identifier, mode, pipeline name, raw tags and the asset selection
(each asset key is a path, a list of strings). -/
structure Run where
  id : String
  mode : String
  pipelineName : String
  tags : List PipelineTag
  assetSelection : Option (List (List String))
deriving DecidableEq, Repr

/-- An entry of repo.match.repository.pipelines: a named pipeline or job. -/
structure PipelineOrJob where
  name : String
  isJob : Bool
deriving DecidableEq, Repr

/-- repo.match.repository as read by the isJob memo: its pipelines list. -/
structure Repository where
  pipelines : List PipelineOrJob
deriving DecidableEq, Repr

/-- The repository resolved for a run (useRepositoryForRunWithoutSnapshot);
`none` when the lookup finds no match. -/
structure RepoMatch where
  repository : Repository
deriving DecidableEq, Repr

/-- isJob from RunRow: when a repository resolved, look the pipeline name up
in its pipelines and read the isJob flag of the match (false when absent);
when no repository resolved, false. -/
def isJob (repo : Option RepoMatch) (pipelineName : String) : Bool :=
  match repo with
  | some r =>
    let pipelinesAndJobs := r.repository.pipelines
    let m := pipelinesAndJobs.find? (fun pipelineOrJob => pipelineOrJob.name == pipelineName)
    ((m.map (fun x => x.isJob)).getD false)
  | none => false

namespace DagsterTag

/-- Modelled from the spec: the DagsterTag enumeration member whose key
denotes the parent run id (the RunTag module is not in the snapshot). -/
def ParentRunId : String := "dagster/parent_run_id"

/-- Modelled from the spec: the DagsterTag enumeration member whose key
denotes backfill origin (the RunTag module is not in the snapshot). -/
def Backfill : String := "dagster/backfill"

end DagsterTag

/-- A tag annotated with its derived pinned flag. -/
structure PinnedTag where
  key : String
  value : String
  pinned : Bool
deriving DecidableEq, Repr

/-- TagType from the RunTag module as consumed by RunTags: a tag with its
pinned flag and an optional display link. -/
structure TagType where
  key : String
  value : String
  pinned : Bool
  link : Option String
deriving DecidableEq, Repr

/-- allTagsWithPinned from RunRow: the raw run tags, plus a synthesized
mode tag when (isJob and mode is not default) or the run is not a job,
each annotated pinned iff its key is absent from the unpinned list
(indexOf equals -1). -/
def allTagsWithPinned (run : Run) (jb : Bool) (unpinnedTags : List String) : List PinnedTag :=
  let allTags :=
    run.tags ++
      (if (jb && run.mode != "default") || !jb then
        [{ key := "mode", value := run.mode }]
      else [])
  allTags.map (fun tag =>
    { key := tag.key, value := tag.value, pinned := !(unpinnedTags.contains tag.key) })

/-- isReexecution from RunRow: some raw tag has the parent-run-id key. -/
def isReexecution (run : Run) : Bool :=
  run.tags.any (fun tag => tag.key == DagsterTag.ParentRunId)

/-- targetBackfill from RunRow: the first tag of the pinned-annotated list
whose key is the backfill key. -/
def targetBackfill (allTags : List PinnedTag) : Option PinnedTag :=
  allTags.find? (fun tag => tag.key == DagsterTag.Backfill)

/-- A filter token of the runs list view. -/
structure RunFilterToken where
  token : String
  value : String
deriving DecidableEq, Repr

/-- Modelled from the spec: runsPathWithFilters (RunsFilterInput module,
not in the snapshot) produces a run-list path whose query carries each
filter token as token=value. -/
def runsPathWithFilters (tokens : List RunFilterToken) : String :=
  "/runs?q=" ++ String.intercalate "&q=" (tokens.map (fun t => t.token ++ "=" ++ t.value))

/-- The truthiness of run.assetSelection?.length: false when the asset
selection is absent or empty, true otherwise. -/
def hasAssetSelection (run : Run) : Bool :=
  match run.assetSelection with
  | some l => l.length != 0
  | none => false

/-- The link computed for a pinned backfill tag in tagsToShow: a
backfill-detail path when the run has a non-empty asset selection,
otherwise the run-list path filtered by tag=backfillKey=value. -/
def backfillLink (run : Run) (value : String) : String :=
  if hasAssetSelection run then
    "/overview/backfills/" ++ value
  else
    runsPathWithFilters [{ token := "tag", value := DagsterTag.Backfill ++ "=" ++ value }]

/-- tagsToShow from RunRow: when the backfill tag is present and pinned it
is pushed first with its link and its key recorded in tagKeys; then every
tag of the pinned-annotated list is appended in order, skipping keys
already recorded and keys present in the unpinned list. -/
def tagsToShow (run : Run) (jb : Bool) (unpinnedTags : List String) : List TagType :=
  let atp := allTagsWithPinned run jb unpinnedTags
  let init : List String × List TagType :=
    match targetBackfill atp with
    | some tb =>
      if tb.pinned then
        ([DagsterTag.Backfill],
         [{ key := tb.key, value := tb.value, pinned := tb.pinned,
            link := some (backfillLink run tb.value) }])
      else ([], [])
    | none => ([], [])
  atp.foldl (fun acc tag =>
    if init.1.contains tag.key then acc
    else if unpinnedTags.contains tag.key then acc
    else acc ++ [{ key := tag.key, value := tag.value, pinned := tag.pinned, link := none }]) init.2

/-- onToggleTagPin from RunRow, as the pure update it applies to the stored
unpinned list: remove the key when present, append it when absent. -/
def onToggleTagPin (tagKey : String) (unpinnedTags : List String) : List String :=
  if unpinnedTags.contains tagKey then
    unpinnedTags.filter (fun key => key != tagKey)
  else
    unpinnedTags ++ [tagKey]

/-- The tag list handed to the full-tag-list dialog (RunTags inside the
Dialog body): the whole pinned-annotated list. -/
def dialogTags (run : Run) (jb : Bool) (unpinnedTags : List String) : List PinnedTag :=
  allTagsWithPinned run jb unpinnedTags

/-- A client-stored value as the useStateWithStorage validator receives it:
arbitrary JSON, or the absent value. -/
inductive JsonValue where
  | jnull : JsonValue
  | jundefined : JsonValue
  | jbool : Bool → JsonValue
  | jnum : Int → JsonValue
  | jstr : String → JsonValue
  | jarr : List JsonValue → JsonValue
  | jobj : List (String × JsonValue) → JsonValue

/-- The unpinned-tags validator passed to useStateWithStorage: the stored
value itself when it is an array, the empty list otherwise. Totality of
this definition is the no-throw guarantee. -/
def validateUnpinnedTags (value : JsonValue) : List JsonValue :=
  match value with
  | .jarr elems => elems
  | _ => []

/-- The mutually exclusive render states of the content function. -/
inductive TableContent where
  | emptyStateOverride : TableContent
  | noMatchingRuns : TableContent
  | noRunsYet : TableContent
  | populated : Nat → TableContent
deriving DecidableEq, Repr

/-- content from RunTable: with an empty run list, the emptyState override
when supplied, else the no-matching-runs state when the filter object has
any key, else the no-runs-yet state; with a non-empty list, the populated
table. filterKeys carries the keys of the filter object (none when the
filter prop is absent). -/
def content (runs : List Run) (filterKeys : Option (List String))
    (hasEmptyState : Bool) : TableContent :=
  if runs.length = 0 then
    if hasEmptyState then .emptyStateOverride
    else if (filterKeys.getD []).length != 0 then .noMatchingRuns
    else .noRunsYet
  else .populated runs.length

/-- Modelled from the spec: the selection store of useSelectionReducer
(the hooks module is not in the snapshot): the checked id set and the
last-toggled id remembered for shift-range toggles. -/
structure SelectionState where
  checkedIds : Finset String
  lastToggledId : Option String

/-- Modelled from the spec: toggleAll of useSelectionReducer checks every
id currently in the list when invoked with true and clears the checked
set when invoked with false. -/
def onToggleAll (allIds : List String) (checked : Bool) (s : SelectionState) : SelectionState :=
  if checked then { s with checkedIds := allIds.toFinset }
  else { s with checkedIds := ∅ }

/-- Forgets the derived pinned flag of a tag. -/
def stripPin (t : PinnedTag) : PipelineTag :=
  { key := t.key, value := t.value }

/-- The client-side state a pin toggle may touch: the run entity the row
renders and the stored unpinned list. -/
structure RowState where
  run : Run
  unpinnedTags : List String
deriving DecidableEq, Repr

/-- One pin-toggle event followed by the re-render derivation: the stored
unpinned list is updated by onToggleTagPin and the summary tag list is
re-derived from the run. -/
def togglePinAndRederive (tagKey : String) (jb : Bool) (s : RowState) :
    RowState × List TagType :=
  let s2 : RowState := { run := s.run, unpinnedTags := onToggleTagPin tagKey s.unpinnedTags }
  (s2, tagsToShow s2.run jb s2.unpinnedTags)

/-- Restatement of the summary tag list from the words of the
specification, for comparison with the source-derived tagsToShow: the
pinned backfill tag first with its link, then every other tag whose key is
neither the backfill key nor unpinned, in original order; without a pinned
backfill tag, every tag whose key is not unpinned, in original order. -/
def tagsToShowSpec (run : Run) (jb : Bool) (unpinnedTags : List String) : List TagType :=
  let atp := allTagsWithPinned run jb unpinnedTags
  match targetBackfill atp with
  | some tb =>
    if tb.pinned then
      { key := tb.key, value := tb.value, pinned := tb.pinned,
        link := some (backfillLink run tb.value) } ::
        (atp.filter (fun tag =>
          !(tag.key == DagsterTag.Backfill) && !(unpinnedTags.contains tag.key))).map
          (fun tag => { key := tag.key, value := tag.value, pinned := tag.pinned, link := none })
    else
      (atp.filter (fun tag => !(unpinnedTags.contains tag.key))).map
        (fun tag => { key := tag.key, value := tag.value, pinned := tag.pinned, link := none })
  | none =>
    (atp.filter (fun tag => !(unpinnedTags.contains tag.key))).map
      (fun tag => { key := tag.key, value := tag.value, pinned := tag.pinned, link := none })

lemma foldl_skip_append {α β : Type} (p q : α → Bool) (g : α → β) :
    ∀ (l : List α) (init : List β),
      l.foldl (fun acc t => if p t then acc else if q t then acc else acc ++ [g t]) init =
        init ++ (l.filter (fun t => !(p t) && !(q t))).map g := by
  intro l
  induction l with
  | nil => intro init; simp
  | cons a l ih =>
    intro init
    cases hp : p a with
    | true => simp [List.foldl_cons, hp, List.filter_cons, ih]
    | false =>
      cases hq : q a with
      | true => simp [List.foldl_cons, hp, hq, List.filter_cons, ih]
      | false => simp [List.foldl_cons, hp, hq, List.filter_cons, ih]

lemma map_stripPin_allTagsWithPinned (run : Run) (jb : Bool) (u : List String) :
    (allTagsWithPinned run jb u).map stripPin =
      run.tags ++
        (if (jb && run.mode != "default") || !jb then
          [{ key := "mode", value := run.mode }]
        else []) := by
  simp only [allTagsWithPinned, List.map_map]
  exact List.map_id _

lemma tagsToShow_eq_spec (run : Run) (jb : Bool) (u : List String) :
    tagsToShow run jb u = tagsToShowSpec run jb u := by
  unfold tagsToShow tagsToShowSpec
  have hfun0 : (fun t : PinnedTag => !(([] : List String).contains t.key) && !u.contains t.key)
      = (fun tag : PinnedTag => !u.contains tag.key) := by
    funext t
    simp only [List.contains_nil, Bool.not_false, Bool.true_and]
  cases h : targetBackfill (allTagsWithPinned run jb u) with
  | none =>
    simp only [h, foldl_skip_append, List.nil_append]
    rw [hfun0]
  | some tb =>
    cases hp : tb.pinned with
    | false =>
      simp only [h, hp, Bool.false_eq_true, if_false, foldl_skip_append, List.nil_append]
      rw [hfun0]
    | true =>
      simp only [h, hp, if_true, foldl_skip_append, List.singleton_append]
      have hfun : (fun t : PinnedTag => ! [DagsterTag.Backfill].contains t.key && !u.contains t.key)
          = (fun tag : PinnedTag => !(tag.key == DagsterTag.Backfill) && !u.contains tag.key) := by
        funext t
        simp only [List.contains_cons, List.contains_nil, Bool.or_false]
      rw [hfun]

lemma mem_allTagsWithPinned (run : Run) (jb : Bool) (u : List String) (t : PinnedTag)
    (h : t ∈ allTagsWithPinned run jb u) :
    ({ key := t.key, value := t.value } : PipelineTag) ∈ run.tags ∨
      (t.key = "mode" ∧ t.value = run.mode) := by
  simp only [allTagsWithPinned, List.mem_map, List.mem_append] at h
  obtain ⟨tag, htag, rfl⟩ := h
  rcases htag with htag | htag
  · exact Or.inl htag
  · right
    rcases hc : ((jb && run.mode != "default") || !jb) with _ | _ <;> rw [hc] at htag
    · simp at htag
    · simp at htag
      subst htag
      exact ⟨rfl, rfl⟩

/-- A concrete run with a backfill tag and a plain tag, no asset selection. -/
def sampleBackfillRun : Run :=
  { id := "r1", mode := "prod", pipelineName := "p",
    tags := [{ key := DagsterTag.Backfill, value := "bf1" },
             { key := "team", value := "core" }],
    assetSelection := none }

/-- A concrete run with a backfill tag and a non-empty asset selection. -/
def backfillAssetsRun : Run :=
  { id := "r2", mode := "prod", pipelineName := "p",
    tags := [{ key := DagsterTag.Backfill, value := "bf2" }],
    assetSelection := some [["asset1"]] }

/-- A concrete run in the default mode. -/
def sampleDefaultModeRun : Run :=
  { id := "r3", mode := "default", pipelineName := "p",
    tags := [{ key := "team", value := "core" }],
    assetSelection := none }

/-- C1: the summary tag list is the pinned backfill tag first, added once
and not repeated later, followed by every other tag whose key is not in
the unpinned set, in the original order of the full tag list (the shape
captured by tagsToShowSpec), and every tag of the full pinned-annotated
list, the unpinned ones included, appears in the full-tag-list dialog. -/
theorem c1_tags_to_show_summary (run : Run) (jb : Bool) (u : List String) :
    tagsToShow run jb u = tagsToShowSpec run jb u ∧
    ∀ t, t ∈ allTagsWithPinned run jb u → t ∈ dialogTags run jb u :=
  ⟨tagsToShow_eq_spec run jb u, fun _ ht => ht⟩

theorem c1_tags_to_show_summary_witness :
    tagsToShow sampleBackfillRun false ["team"] = tagsToShowSpec sampleBackfillRun false ["team"] ∧
    ({ key := "team", value := "core", pinned := false } : PinnedTag) ∈
      dialogTags sampleBackfillRun false ["team"] :=
  ⟨(c1_tags_to_show_summary sampleBackfillRun false ["team"]).1,
   (c1_tags_to_show_summary sampleBackfillRun false ["team"]).2
     { key := "team", value := "core", pinned := false } (by decide)⟩

/-- C2: stripped of the pinned flags, the full tag list is the raw tags
plus exactly one synthesized mode tag, present when the run is not a job
or its mode is not default, and absent when the run is a job in the
default mode. -/
theorem c2_mode_tag_inclusion (run : Run) (jb : Bool) (u : List String) :
    ((jb = false ∨ run.mode ≠ "default") →
      (allTagsWithPinned run jb u).map stripPin =
        run.tags ++ [{ key := "mode", value := run.mode }]) ∧
    (jb = true → run.mode = "default" →
      (allTagsWithPinned run jb u).map stripPin = run.tags) := by
  constructor
  · intro h
    rw [map_stripPin_allTagsWithPinned]
    have hc : ((jb && run.mode != "default") || !jb) = true := by
      rcases h with h | h
      · subst h; simp
      · cases jb <;> simp [h]
    rw [hc]
    simp
  · intro hj hm
    subst hj
    rw [map_stripPin_allTagsWithPinned, hm]
    simp

theorem c2_mode_tag_inclusion_witness :
    (allTagsWithPinned sampleBackfillRun false []).map stripPin =
      sampleBackfillRun.tags ++ [{ key := "mode", value := sampleBackfillRun.mode }] ∧
    (allTagsWithPinned sampleDefaultModeRun true []).map stripPin = sampleDefaultModeRun.tags :=
  ⟨(c2_mode_tag_inclusion sampleBackfillRun false []).1 (Or.inl rfl),
   (c2_mode_tag_inclusion sampleDefaultModeRun true []).2 rfl rfl⟩

/-- C6: isReexecution holds exactly when some raw tag of the run carries
the parent-run-id key; with no such raw tag it is false. -/
theorem c6_reexecution_iff (run : Run) :
    isReexecution run = true ↔ ∃ tag ∈ run.tags, tag.key = DagsterTag.ParentRunId := by
  simp [isReexecution]

/-- C10: when the repository lookup resolves to no match, isJob is false,
and therefore the synthesized mode tag is appended to the full tag list
whatever the mode of the run is. -/
theorem c10_unresolved_repo_mode_tag (run : Run) (u : List String) (name : String) :
    isJob none name = false ∧
    (allTagsWithPinned run (isJob none run.pipelineName) u).map stripPin =
      run.tags ++ [{ key := "mode", value := run.mode }] := by
  refine ⟨rfl, ?_⟩
  rw [map_stripPin_allTagsWithPinned]
  simp [isJob]

/-- C3: for a run whose backfill tag is present and pinned, the summary
list opens with the backfill tag, whose link is the backfill-detail path
holding the backfill value as a path segment when the asset selection is
non-empty, and the run-list path filtered by tag=backfillKey=value when
the asset selection is empty or absent. -/
theorem c3_backfill_tag_link (run : Run) (jb : Bool) (u : List String) (tb : PinnedTag)
    (h : targetBackfill (allTagsWithPinned run jb u) = some tb)
    (hp : tb.pinned = true) :
    (hasAssetSelection run = true →
      (tagsToShow run jb u).head? =
        some { key := tb.key, value := tb.value, pinned := tb.pinned,
               link := some ("/overview/backfills/" ++ tb.value) }) ∧
    (hasAssetSelection run = false →
      (tagsToShow run jb u).head? =
        some { key := tb.key, value := tb.value, pinned := tb.pinned,
               link := some (runsPathWithFilters
                 [{ token := "tag", value := DagsterTag.Backfill ++ "=" ++ tb.value }]) }) := by
  rw [tagsToShow_eq_spec]
  unfold tagsToShowSpec
  simp only [h, hp, if_true, List.head?_cons]
  constructor
  · intro ha
    simp [backfillLink, ha]
  · intro ha
    simp [backfillLink, ha]

theorem c3_backfill_tag_link_witness :
    (tagsToShow backfillAssetsRun false []).head? =
      some { key := DagsterTag.Backfill, value := "bf2", pinned := true,
             link := some ("/overview/backfills/" ++ "bf2") } ∧
    (tagsToShow sampleBackfillRun false []).head? =
      some { key := DagsterTag.Backfill, value := "bf1", pinned := true,
             link := some (runsPathWithFilters
               [{ token := "tag", value := DagsterTag.Backfill ++ "=" ++ "bf1" }]) } :=
  ⟨(c3_backfill_tag_link backfillAssetsRun false []
      { key := DagsterTag.Backfill, value := "bf2", pinned := true }
      (by decide) (by decide)).1 (by decide),
   (c3_backfill_tag_link sampleBackfillRun false []
      { key := DagsterTag.Backfill, value := "bf1", pinned := true }
      (by decide) (by decide)).2 (by decide)⟩

/-- C4: one application of the pin toggle flips whether the key is a
member of the unpinned list, and two applications restore the original
membership of every key. -/
theorem c4_toggle_pin_involution (k : String) (u : List String) :
    (∀ x, x ∈ onToggleTagPin k (onToggleTagPin k u) ↔ x ∈ u) ∧
    (k ∈ onToggleTagPin k u ↔ k ∉ u) := by
  constructor
  · intro x
    by_cases hk : k ∈ u
    · have h1 : onToggleTagPin k u = u.filter (fun key => key != k) := by
        simp [onToggleTagPin, hk]
      have h2 : ¬((u.filter (fun key => key != k)).contains k = true) := by
        simp [List.mem_filter]
      have h3 : onToggleTagPin k (u.filter (fun key => key != k)) =
          u.filter (fun key => key != k) ++ [k] := by
        simp only [onToggleTagPin]
        rw [if_neg h2]
      rw [h1, h3]
      simp only [List.mem_append, List.mem_filter, List.mem_singleton, bne_iff_ne, ne_eq]
      constructor
      · rintro (⟨hxu, _⟩ | rfl)
        · exact hxu
        · exact hk
      · intro hxu
        by_cases hxk : x = k
        · exact Or.inr hxk
        · exact Or.inl ⟨hxu, hxk⟩
    · have h1 : onToggleTagPin k u = u ++ [k] := by
        simp [onToggleTagPin, hk]
      have h2 : (u ++ [k]).contains k = true := by simp
      have h3 : onToggleTagPin k (u ++ [k]) = (u ++ [k]).filter (fun key => key != k) := by
        simp only [onToggleTagPin]
        rw [if_pos h2]
      rw [h1, h3]
      simp only [List.mem_filter, List.mem_append, List.mem_singleton, bne_iff_ne, ne_eq]
      constructor
      · rintro ⟨hx | rfl, hne⟩
        · exact hx
        · exact absurd rfl hne
      · intro hxu
        refine ⟨Or.inl hxu, ?_⟩
        rintro rfl
        exact hk hxu
  · by_cases hk : k ∈ u
    · have h1 : onToggleTagPin k u = u.filter (fun key => key != k) := by
        simp [onToggleTagPin, hk]
      rw [h1]
      simp [List.mem_filter, hk]
    · have h1 : onToggleTagPin k u = u ++ [k] := by
        simp [onToggleTagPin, hk]
      rw [h1]
      simp [hk]

/-- C5: on any stored value that is not an array the validator yields the
empty list without failing, and with an empty unpinned list every tag of
the full tag list is pinned. -/
theorem c5_validator_tolerates_non_lists (v : JsonValue) (run : Run) (jb : Bool)
    (h : ∀ l, v ≠ JsonValue.jarr l) :
    validateUnpinnedTags v = [] ∧
    (allTagsWithPinned run jb ([] : List String)).all (fun t => t.pinned) = true := by
  constructor
  · cases v with
    | jarr l => exact absurd rfl (h l)
    | jnull => rfl
    | jundefined => rfl
    | jbool b => rfl
    | jnum n => rfl
    | jstr s => rfl
    | jobj o => rfl
  · simp [allTagsWithPinned, List.all_eq_true]

theorem c5_validator_tolerates_non_lists_witness :
    validateUnpinnedTags (JsonValue.jstr "oops") = [] ∧
    (allTagsWithPinned sampleBackfillRun false ([] : List String)).all
      (fun t => t.pinned) = true :=
  c5_validator_tolerates_non_lists (JsonValue.jstr "oops") sampleBackfillRun false
    (fun _ hl => JsonValue.noConfusion hl)

/-- C7 as frozen is refuted at a concrete input: with an empty run list,
no active filter, but an emptyState override supplied, content renders the
override, not the no-runs-yet state, so the rendered state is not purely a
function of list length and active filter. -/
theorem c7_counterexample :
    content ([] : List Run) none true ≠ TableContent.noRunsYet := by decide

/-- C7 amended: with no emptyState override supplied, the rendered state
is purely a function of the list length and the active filter: empty list
and no filter key renders the no-runs-yet state, empty list with a filter
key renders the distinct no-matching-runs state, and a non-empty list
renders the populated table. -/
theorem c7_empty_states (runs : List Run) (filterKeys : Option (List String)) :
    (runs.length = 0 → (filterKeys.getD []).length = 0 →
      content runs filterKeys false = TableContent.noRunsYet) ∧
    (runs.length = 0 → (filterKeys.getD []).length ≠ 0 →
      content runs filterKeys false = TableContent.noMatchingRuns) ∧
    (runs.length ≠ 0 → content runs filterKeys false = TableContent.populated runs.length) := by
  refine ⟨?_, ?_, ?_⟩
  · intro h0 hf
    simp [content, h0, hf]
  · intro h0 hf
    simp [content, h0, hf]
  · intro h0
    simp [content, h0]

theorem c7_empty_states_witness :
    content ([] : List Run) none false = TableContent.noRunsYet ∧
    content ([] : List Run) (some ["statusKey"]) false = TableContent.noMatchingRuns ∧
    content [sampleBackfillRun] none false = TableContent.populated 1 :=
  ⟨(c7_empty_states [] none).1 rfl rfl,
   (c7_empty_states [] (some ["statusKey"])).2.1 rfl (by decide),
   (c7_empty_states [sampleBackfillRun] none).2.2 (by decide)⟩

/-- C8: toggleAll with true checks every id of the list, giving a checked
set as large as the (duplicate-free) id list, and toggleAll with false
empties the checked set. -/
theorem c8_toggle_all (allIds : List String) (s : SelectionState) (h : allIds.Nodup) :
    (onToggleAll allIds true s).checkedIds.card = allIds.length ∧
    (∀ i, i ∈ allIds → i ∈ (onToggleAll allIds true s).checkedIds) ∧
    (onToggleAll allIds false s).checkedIds.card = 0 := by
  refine ⟨?_, ?_, ?_⟩
  · simp [onToggleAll, List.toFinset_card_of_nodup h]
  · intro i hi
    simp [onToggleAll, List.mem_toFinset, hi]
  · simp [onToggleAll]

theorem c8_toggle_all_witness :
    (onToggleAll ["a", "b"] true { checkedIds := ∅, lastToggledId := none }).checkedIds.card = 2 ∧
    "a" ∈ (onToggleAll ["a", "b"] true { checkedIds := ∅, lastToggledId := none }).checkedIds ∧
    (onToggleAll ["a", "b"] false { checkedIds := ∅, lastToggledId := none }).checkedIds.card = 0 :=
  ⟨(c8_toggle_all ["a", "b"] { checkedIds := ∅, lastToggledId := none } (by decide)).1,
   (c8_toggle_all ["a", "b"] { checkedIds := ∅, lastToggledId := none } (by decide)).2.1
     "a" (by decide),
   (c8_toggle_all ["a", "b"] { checkedIds := ∅, lastToggledId := none } (by decide)).2.2⟩

/-- C9: a pin toggle followed by re-derivation leaves the Run entity of
the row state untouched, the full tag list stripped of pin flags does not
depend on the unpinned list, and every displayed tag is either one of the
raw run tags or the synthesized mode tag, so synthesized tags live only in
the derived list. -/
theorem c9_no_entity_mutation (run : Run) (jb : Bool) (u : List String) (k : String) :
    (togglePinAndRederive k jb { run := run, unpinnedTags := u }).1.run = run ∧
    (allTagsWithPinned run jb (onToggleTagPin k u)).map stripPin =
      (allTagsWithPinned run jb u).map stripPin ∧
    (∀ d, d ∈ tagsToShow run jb u →
      ({ key := d.key, value := d.value } : PipelineTag) ∈ run.tags ∨
        (d.key = "mode" ∧ d.value = run.mode)) := by
  refine ⟨rfl, ?_, ?_⟩
  · rw [map_stripPin_allTagsWithPinned, map_stripPin_allTagsWithPinned]
  · intro d hd
    rw [tagsToShow_eq_spec] at hd
    unfold tagsToShowSpec at hd
    cases h : targetBackfill (allTagsWithPinned run jb u) with
    | none =>
      simp only [h, List.mem_map, List.mem_filter] at hd
      obtain ⟨t, ⟨ht, _⟩, rfl⟩ := hd
      exact mem_allTagsWithPinned run jb u t ht
    | some tb =>
      cases hp : tb.pinned with
      | false =>
        simp only [h, hp, Bool.false_eq_true, if_false, List.mem_map, List.mem_filter] at hd
        obtain ⟨t, ⟨ht, _⟩, rfl⟩ := hd
        exact mem_allTagsWithPinned run jb u t ht
      | true =>
        simp only [h, hp, if_true, List.mem_cons, List.mem_map, List.mem_filter] at hd
        rcases hd with rfl | ⟨t, ⟨ht, _⟩, rfl⟩
        · have htb : tb ∈ allTagsWithPinned run jb u := List.mem_of_find?_eq_some h
          exact mem_allTagsWithPinned run jb u tb htb
        · exact mem_allTagsWithPinned run jb u t ht

theorem c9_no_entity_mutation_witness :
    (togglePinAndRederive "team" false
      { run := sampleBackfillRun, unpinnedTags := [] }).1.run = sampleBackfillRun ∧
    (allTagsWithPinned sampleBackfillRun false (onToggleTagPin "team" [])).map stripPin =
      (allTagsWithPinned sampleBackfillRun false []).map stripPin ∧
    (({ key := "team", value := "core" } : PipelineTag) ∈ sampleBackfillRun.tags ∨
      ("team" = "mode" ∧ "core" = sampleBackfillRun.mode)) :=
  ⟨(c9_no_entity_mutation sampleBackfillRun false [] "team").1,
   (c9_no_entity_mutation sampleBackfillRun false [] "team").2.1,
   (c9_no_entity_mutation sampleBackfillRun false [] "team").2.2
     { key := "team", value := "core", pinned := true, link := none } (by decide)⟩
